import Mathlib

/-!
# Verification of the CoNLL-U ingestion and encoding pipeline

Shallow embedding of the corpus-preparation pipeline for PoS tagging:
the CoNLL-U parser (`conllu_processor.py`), the closed tag mapper
(`Mapper.py`), the Keras-style word tokenizer, tag encoding and
padding (`tokenization_and_mapping.py`), and the padding helper of
`MyTagger.py`.

Python strings are modelled as Lean `String`s, but every string
operation used by the code (split on tab, strip, lower, startswith,
membership of a character) is defined here at the level of the
underlying character list so that all definitions evaluate inside the
kernel.  Python's `str.lower()` is modelled by ASCII lowercasing
(`Char.toLower` on each character), which agrees with Python on all
ASCII data; the model `lower` is proved equal to `String.toLower`.
-/

/-- Characters of a split: models Python's `line.split('\t')` at the
character-list level.  `splitChar sep l` splits `l` at every occurrence
of `sep`; like Python, the empty list yields `[[]]` and separators at
the ends yield empty fields. -/
def splitChar (sep : Char) : List Char → List (List Char)
  | [] => [[]]
  | c :: cs =>
    match splitChar sep cs with
    | [] => [[c]]
    | h :: t => if c = sep then [] :: h :: t else (c :: h) :: t

/-- Models Python's `line.split('\t')`. -/
def split_tab (s : String) : List String :=
  (splitChar '\t' s.data).map (fun l => ⟨l⟩)

/-- Models Python's `line.strip()`: drop leading and trailing
whitespace. -/
def py_strip (s : String) : String :=
  ⟨((s.data.dropWhile Char.isWhitespace).reverse.dropWhile Char.isWhitespace).reverse⟩

/-- Models Python's `s.startswith("#")`. -/
def starts_hash (s : String) : Bool := s.data.head? = some '#'

/-- Models Python's `c in s` for a single character `c`. -/
def str_contains (s : String) (c : Char) : Bool := s.data.contains c

/-- Models Python's `s.lower()` (ASCII case mapping, which agrees with
Python on the ASCII data handled here).  Defined on the character list
so that it evaluates in the kernel; equal to `String.toLower`. -/
def lower (s : String) : String := ⟨s.data.map Char.toLower⟩

/- ===================================================================
   Mapper.py
   =================================================================== -/

/-- The dictionary literal `id_mapping` of `Mapper.map_ids`
(`src/Mapper.py`): the 17 closed universal POS tags mapped to 1..17,
and `UNK` mapped to 18. -/
def id_mapping : List (String × Nat) :=
  [("ADJ", 1), ("ADP", 2), ("ADV", 3), ("AUX", 4), ("CCONJ", 5), ("DET", 6),
   ("INTJ", 7), ("NOUN", 8), ("NUM", 9), ("PART", 10), ("PRON", 11), ("PROPN", 12),
   ("PUNCT", 13), ("SCONJ", 14), ("SYM", 15), ("VERB", 16), ("X", 17), ("UNK", 18)]

/-- `Mapper.map_ids`: maps each tag through `id_mapping` in order; a
missing key raises `KeyError` in Python, aborting the loop, modelled by
`none`. -/
def map_ids : List String → Option (List Nat)
  | [] => some []
  | t :: ts =>
    match id_mapping.lookup t, map_ids ts with
    | some i, some is => some (i :: is)
    | _, _ => none

/-- The dictionary literal `pos_mapping` of `Mapper.map_pos`
(`src/Mapper.py`): the inverse direction, 1..17 to the closed tags and
18 to `UNK`. -/
def pos_mapping : List (Nat × String) :=
  [(1, "ADJ"), (2, "ADP"), (3, "ADV"), (4, "AUX"), (5, "CCONJ"), (6, "DET"),
   (7, "INTJ"), (8, "NOUN"), (9, "NUM"), (10, "PART"), (11, "PRON"), (12, "PROPN"),
   (13, "PUNCT"), (14, "SCONJ"), (15, "SYM"), (16, "VERB"), (17, "X"), (18, "UNK")]

/-- `Mapper.map_pos`: maps each id through `pos_mapping` in order; a
missing key raises `KeyError` in Python, aborting the loop, modelled by
`none`. -/
def map_pos : List Nat → Option (List String)
  | [] => some []
  | i :: is =>
    match pos_mapping.lookup i, map_pos is with
    | some t, some ts => some (t :: ts)
    | _, _ => none

/- ===================================================================
   conllu_processor.py : CoNLLUProcessor
   =================================================================== -/

/-- The mutable fields of a `CoNLLUProcessor` instance
(`src/conllu_processor.py`, `__init__`). -/
structure ProcState where
  sentences : List (List (String × String))
  raw_sentences : List (List String)
  removed_multiword_count : Nat
  removed_empty_nodes : Nat
  removed_long_sentences : Nat
  total_sentences_processed : Nat
  max_sentence_length : Nat
deriving DecidableEq

/-- The state produced by `CoNLLUProcessor.__init__`. -/
def initProcState : ProcState :=
  { sentences := [], raw_sentences := [], removed_multiword_count := 0,
    removed_empty_nodes := 0, removed_long_sentences := 0,
    total_sentences_processed := 0, max_sentence_length := 128 }

/-- `CoNLLUProcessor._is_multiword_token`: any token id containing a
hyphen that does not start with `#`. -/
def is_multiword_token (token_id : String) : Bool :=
  str_contains token_id '-' && !(starts_hash token_id)

/-- `CoNLLUProcessor._is_empty_node`: any token id containing a dot. -/
def is_empty_node (token_id : String) : Bool :=
  str_contains token_id '.'

/-- `CoNLLUProcessor._parse_token_line`: split the line on tabs,
require exactly 10 columns, then classify by the id column; multiword
and empty-node records increment the respective counters and are
skipped, records with an empty form or an empty or placeholder tag are
skipped without counting, all remaining records yield a
`(form, upos)` pair. -/
def parse_token_fields (st : ProcState) (parts : List String) :
    ProcState × Option (String × String) :=
  match parts with
  | [token_id, word_form, _lm, upos_tag, _c5, _c6, _c7, _c8, _c9, _c10] =>
    if is_multiword_token token_id then
      ({ st with removed_multiword_count := st.removed_multiword_count + 1 }, none)
    else if is_empty_node token_id then
      ({ st with removed_empty_nodes := st.removed_empty_nodes + 1 }, none)
    else if word_form = "" ∨ upos_tag = "" ∨ upos_tag = "_" then
      (st, none)
    else
      (st, some (word_form, upos_tag))
  | _ => (st, none)

/-- `CoNLLUProcessor._parse_token_line` applied to a raw line:
`parts = line.split('\t')` followed by the field classification. -/
def parse_token_line (st : ProcState) (line : String) :
    ProcState × Option (String × String) :=
  parse_token_fields st (split_tab line)

/-- `CoNLLUProcessor._process_completed_sentence`: count the sentence,
drop it if it exceeds `max_sentence_length` (incrementing the
long-sentence counter), keep it if it has at least one token. -/
def process_completed_sentence (st : ProcState)
    (sentence : List (String × String)) (raw : List String) : ProcState :=
  let st1 := { st with
    total_sentences_processed := st.total_sentences_processed + 1 }
  if st1.max_sentence_length < sentence.length then
    { st1 with removed_long_sentences := st1.removed_long_sentences + 1 }
  else if 0 < sentence.length then
    { st1 with sentences := st1.sentences ++ [sentence],
               raw_sentences := st1.raw_sentences ++ [raw] }
  else st1

/-- The loop state of `CoNLLUProcessor._parse_conllu_content`: the
processor fields together with the current-sentence accumulators. -/
structure ParseAcc where
  st : ProcState
  current : List (String × String)
  current_raw : List String
deriving DecidableEq

/-- One iteration of the line loop of
`CoNLLUProcessor._parse_conllu_content`: strip the line; a blank line
finalizes a non-empty accumulator; a `#` line is kept only in the raw
accumulator; any other line goes through `parse_token_line`. -/
def parse_line_step (acc : ParseAcc) (raw_line : String) : ParseAcc :=
  let line := py_strip raw_line
  if line = "" then
    if acc.current ≠ [] then
      { st := process_completed_sentence acc.st acc.current acc.current_raw,
        current := [], current_raw := [] }
    else acc
  else if starts_hash line then
    { acc with current_raw := acc.current_raw ++ [line] }
  else
    match parse_token_line acc.st line with
    | (st1, some tok) =>
      { st := st1, current := acc.current ++ [tok],
        current_raw := acc.current_raw ++ [line] }
    | (st1, none) => { acc with st := st1 }

/-- `CoNLLUProcessor._parse_conllu_content`: fold the line loop over
all lines, then finalize a remaining non-empty accumulator. -/
def parse_conllu_content (st : ProcState) (lines : List String) : ProcState :=
  let acc := lines.foldl parse_line_step { st := st, current := [], current_raw := [] }
  if acc.current ≠ [] then
    process_completed_sentence acc.st acc.current acc.current_raw
  else acc.st

/-- `CoNLLUProcessor.load_conllu_file` on an already-opened file,
modelled on its line list: set `max_sentence_length`, then parse.  The
method does not reset any other field of the processor state. -/
def load_conllu_file (st : ProcState) (max_sentence_length : Nat)
    (lines : List String) : ProcState :=
  parse_conllu_content { st with max_sentence_length := max_sentence_length } lines

/-- Pointwise combination of two processor states: sentence lists
concatenated, counters added, `max_sentence_length` taken from the
second.  Used to express how `load_conllu_file` acts on a processor
that already holds data. -/
def merge_state (base delta : ProcState) : ProcState :=
  { sentences := base.sentences ++ delta.sentences,
    raw_sentences := base.raw_sentences ++ delta.raw_sentences,
    removed_multiword_count := base.removed_multiword_count + delta.removed_multiword_count,
    removed_empty_nodes := base.removed_empty_nodes + delta.removed_empty_nodes,
    removed_long_sentences := base.removed_long_sentences + delta.removed_long_sentences,
    total_sentences_processed := base.total_sentences_processed + delta.total_sentences_processed,
    max_sentence_length := delta.max_sentence_length }

/- ===================================================================
   tokenization_and_mapping.py : padding (keras pad_sequences)
   =================================================================== -/

/-- One row of `pad_sequences(..., padding='post', truncating='post')`
as used on `X_train_ids`/`y_train_ids` in
`src/tokenization_and_mapping.py`: sequences of length at least
`maxlen` keep their first `maxlen` elements, shorter ones are extended
with trailing zeros. -/
def pad_sequence_post (maxlen : Nat) (s : List Nat) : List Nat :=
  if maxlen ≤ s.length then s.take maxlen
  else s ++ List.replicate (maxlen - s.length) 0

/-- `pad_sequences(..., maxlen, padding='post', truncating='post')`
over a list of sequences. -/
def pad_sequences_post (xs : List (List Nat)) (maxlen : Nat) : List (List Nat) :=
  xs.map (pad_sequence_post maxlen)

/-- One row of `tf.keras.utils.pad_sequences(..., maxlen=128,
padding="post")` as called by `MyTagger.padding`
(`src/MyTagger.py`): the `truncating` argument is omitted, so the
default `'pre'` applies and sequences of length at least `maxlen` keep
their last `maxlen` elements. -/
def pad_sequence_pre_trunc (maxlen : Nat) (s : List Nat) : List Nat :=
  if maxlen ≤ s.length then s.drop (s.length - maxlen)
  else s ++ List.replicate (maxlen - s.length) 0

/-- `MyTagger.padding`: keras `pad_sequences` with `maxlen=128`,
`padding="post"` and the default `truncating='pre'`. -/
def myTagger_padding (targets : List (List Nat)) : List (List Nat) :=
  targets.map (pad_sequence_pre_trunc 128)

/-- Removing the padding per row, as done by
`word_ids_no_padding = padded_word_ids[:original_length]` in
`src/tokenization_and_mapping.py`. -/
def unpad_rows (rows : List (List Nat)) (true_lengths : List Nat) : List (List Nat) :=
  List.zipWith (fun r n => r.take n) rows true_lengths

/- ===================================================================
   tokenization_and_mapping.py : keras Tokenizer (word level)
   =================================================================== -/

/-- `split_words_tags`, word half: the token forms of each sentence. -/
def split_words (sents : List (List (String × String))) : List (List String) :=
  sents.map (fun s => s.map Prod.fst)

/-- `split_words_tags`, tag half: the tags of each sentence. -/
def split_tags (sents : List (List (String × String))) : List (List String) :=
  sents.map (fun s => s.map Prod.snd)

/-- One step of `Tokenizer.fit_on_texts`'s `word_counts` update
(keras, `lower=True` default): bump the count of `w` if present,
otherwise append it with count 1 (dict insertion order = first-seen
order). -/
def add_word_count (acc : List (String × Nat)) (w : String) : List (String × Nat) :=
  if acc.any (fun p => p.1 = w) then
    acc.map (fun p => if p.1 = w then (p.1, p.2 + 1) else p)
  else acc ++ [(w, 1)]

/-- The `word_counts` dict after `Tokenizer.fit_on_texts(texts)`: each
sentence is lowercased elementwise (keras `lower=True` on list input)
and every token counted, keys in first-seen order. -/
def word_counts (texts : List (List String)) : List (String × Nat) :=
  texts.foldl (fun acc sent => (sent.map lower).foldl add_word_count acc) []

/-- The `sorted_voc` list built by `Tokenizer.fit_on_texts` with
`oov_token="<OOV>"`: the OOV token first, then the counted words by
decreasing count.  Python sorts with the stable Timsort
(`reverse=True`); `List.insertionSort` with the total preorder
`b.2 ≤ a.2` is stable in the same sense and yields the identical
(unique) stable descending order. -/
def sorted_voc (texts : List (List String)) : List String :=
  "<OOV>" ::
    (List.insertionSort (fun a b : String × Nat => b.2 ≤ a.2) (word_counts texts)).map Prod.fst

/-- Index of the first occurrence of `w`; `sorted_voc` never repeats a
key (lowercased forms cannot equal `<OOV>`), so this is the index `w`
receives in `dict(zip(sorted_voc, range(1, len+1)))` shifted by one. -/
def first_index (w : String) : List String → Option Nat
  | [] => none
  | v :: vs => if v = w then some 0 else (first_index w vs).map (· + 1)

/-- `Tokenizer.word_index`: `dict(zip(sorted_voc, range(1, len+1)))`,
i.e. position in `sorted_voc` plus one. -/
def word_index (voc : List String) (w : String) : Option Nat :=
  (first_index w voc).map (· + 1)

/-- `Tokenizer.index_word`: the reverse dict, defined for ids
`1..len(voc)`. -/
def index_word (voc : List String) (i : Nat) : Option String :=
  if i = 0 then none else voc[i - 1]?

/-- One word of `Tokenizer.texts_to_sequences` (`lower=True`,
`oov_token` set): look the lowercased word up in `word_index`, falling
back to the index of the OOV token. -/
def encode_word (voc : List String) (w : String) : Option Nat :=
  match word_index voc (lower w) with
  | some i => some i
  | none => word_index voc "<OOV>"

/-- `Tokenizer.texts_to_sequences` on one sentence: encode each word;
keras appends nothing when a word has no index and no OOV token is
configured, hence the `filterMap`.  With `oov_token="<OOV>"` fitted
into the vocabulary, no word is ever dropped. -/
def texts_to_sequences_sent (voc : List String) (sent : List String) : List Nat :=
  sent.filterMap (encode_word voc)

/-- One word of the decoding step
`word_tokenizer.index_word.get(i, "<UNK>")` in
`src/tokenization_and_mapping.py`. -/
def decode_word (voc : List String) (i : Nat) : String :=
  (index_word voc i).getD "<UNK>"

/-- `decoded_words`: decode every id of a row. -/
def decoded_words (voc : List String) (ids : List Nat) : List String :=
  ids.map (decode_word voc)

/- ===================================================================
   tokenization_and_mapping.py : tag mapping (tag2id / id2tag)
   =================================================================== -/

/-- Set-like accumulation used to model Python's `set(...)`: keep the
first occurrence of each tag. -/
def dedup_append (acc : List String) (t : String) : List String :=
  if t ∈ acc then acc else acc ++ [t]

/-- Code-point comparison of character lists: Python's `<=` on
strings, used by `sorted(...)`. -/
def charListLe : List Char → List Char → Bool
  | [], _ => true
  | _ :: _, [] => false
  | a :: as, b :: bs =>
    if a.toNat < b.toNat then true
    else if b.toNat < a.toNat then false
    else charListLe as bs

/-- `unique_tags = sorted(set(tag for sent in y_train for tag in
sent))` in `src/tokenization_and_mapping.py`. -/
def unique_tags (y : List (List String)) : List String :=
  List.insertionSort (fun a b : String => charListLe a.data b.data = true)
    (y.flatten.foldl dedup_append [])

/-- `tag2id = {tag: i for i, tag in enumerate(unique_tags)}`: position
in `unique_tags`, starting at 0 (`unique_tags` has no duplicates, so
the first index is the dict value); a missing tag raises `KeyError`,
modelled by `none`. -/
def tag2id (ut : List String) (t : String) : Option Nat := first_index t ut

/-- `id2tag = {i: tag for tag, i in tag2id.items()}`. -/
def id2tag (ut : List String) (i : Nat) : Option String := ut[i]?

/-- The tag half of `encode_sentences_and_tags`:
`[tag2id[tag] for tag in tags]`, aborting (`KeyError`) on an unseen
tag. -/
def encode_tags (ut : List String) : List String → Option (List Nat)
  | [] => some []
  | t :: ts =>
    match tag2id ut t, encode_tags ut ts with
    | some i, some is => some (i :: is)
    | _, _ => none

/-- One tag of the decoding step `id2tag.get(i, "<UNK>")`. -/
def decode_tag (ut : List String) (i : Nat) : String :=
  (id2tag ut i).getD "<UNK>"

/-- `decoded_tags`: decode every id of a row. -/
def decoded_tags (ut : List String) (ids : List Nat) : List String :=
  ids.map (decode_tag ut)

/- ===================================================================
   Helper lemmas
   =================================================================== -/

theorem toNat_ofNat_valid {n : Nat} (h : n.isValidChar) : (Char.ofNat n).toNat = n := by
  rw [Char.ofNat, dif_pos h]
  rfl

theorem char_toLower_idem (c : Char) : c.toLower.toLower = c.toLower := by
  unfold Char.toLower
  by_cases h : c.toNat ≥ 65 ∧ c.toNat ≤ 90
  · rw [if_pos h]
    have hv : (c.toNat + 32).isValidChar := Or.inl (by omega)
    rw [toNat_ofNat_valid hv, if_neg (by omega)]
  · rw [if_neg h, if_neg h]

/-- The model `lower` agrees with `String.toLower`. -/
theorem lower_eq_toLower (s : String) : lower s = s.toLower := by
  simp [lower, String.toLower, String.map_eq]

theorem lower_idem (s : String) : lower (lower s) = lower s := by
  simp only [lower, List.map_map]
  exact congrArg String.mk (List.map_congr_left fun c _ => char_toLower_idem c)

theorem first_index_spec {w : String} {l : List String} (h : w ∈ l) :
    ∃ j, first_index w l = some j ∧ l[j]? = some w := by
  induction l with
  | nil => cases h
  | cons v vs ih =>
    by_cases hv : v = w
    · exact ⟨0, by simp [first_index, hv], by simp [hv]⟩
    · have hw : w ∈ vs := by
        rcases List.mem_cons.mp h with h | h
        · exact absurd h.symm hv
        · exact h
      obtain ⟨j, h1, h2⟩ := ih hw
      exact ⟨j + 1, by simp [first_index, hv, h1], by simpa using h2⟩

theorem encode_decode_word {voc : List String} {w : String} (h : lower w ∈ voc) :
    ∃ j, encode_word voc w = some (j + 1) ∧ decode_word voc (j + 1) = lower w := by
  obtain ⟨j, h1, h2⟩ := first_index_spec h
  refine ⟨j, ?_, ?_⟩
  · simp [encode_word, word_index, h1]
  · simp [decode_word, index_word, h2]

theorem texts_roundtrip {voc : List String} {ws : List String}
    (h : ∀ w ∈ ws, lower w ∈ voc) :
    (texts_to_sequences_sent voc ws).length = ws.length ∧
    decoded_words voc (texts_to_sequences_sent voc ws) = ws.map lower := by
  induction ws with
  | nil => simp [texts_to_sequences_sent, decoded_words]
  | cons w ws ih =>
    obtain ⟨j, he, hd⟩ := encode_decode_word (h w (List.mem_cons_self w ws))
    obtain ⟨ih1, ih2⟩ := ih fun v hv => h v (List.mem_cons_of_mem w hv)
    have hcons : texts_to_sequences_sent voc (w :: ws) =
        (j + 1) :: texts_to_sequences_sent voc ws := by
      simp [texts_to_sequences_sent, List.filterMap_cons, he]
    constructor
    · simp [hcons, ih1]
    · simp only [hcons, decoded_words, List.map_cons]
      simp only [decoded_words] at ih2
      rw [hd, ih2]

theorem add_word_count_keys (acc : List (String × Nat)) (w : String) :
    (add_word_count acc w).map Prod.fst = acc.map Prod.fst ∨
    (add_word_count acc w).map Prod.fst = acc.map Prod.fst ++ [w] := by
  unfold add_word_count
  by_cases h : acc.any (fun p => p.1 = w)
  · left
    rw [if_pos h, List.map_map]
    exact List.map_congr_left fun p _ => by by_cases hp : p.1 = w <;> simp [hp]
  · right
    rw [if_neg h]
    simp

theorem mem_keys_add_word_count_self (acc : List (String × Nat)) (w : String) :
    w ∈ (add_word_count acc w).map Prod.fst := by
  unfold add_word_count
  by_cases h : acc.any (fun p => p.1 = w)
  · rw [if_pos h]
    obtain ⟨p, hp, hpe⟩ := List.any_eq_true.mp h
    have : w ∈ acc.map Prod.fst :=
      List.mem_map.mpr ⟨p, hp, of_decide_eq_true hpe⟩
    rcases add_word_count_keys acc w with hk | hk
    · unfold add_word_count at hk
      rw [if_pos h] at hk
      rw [hk]
      exact this
    · unfold add_word_count at hk
      rw [if_pos h] at hk
      rw [hk]
      exact List.mem_append_left _ this
  · rw [if_neg h]
    simp

theorem mem_keys_add_word_count_mono (acc : List (String × Nat)) (w k : String)
    (hk : k ∈ acc.map Prod.fst) : k ∈ (add_word_count acc w).map Prod.fst := by
  rcases add_word_count_keys acc w with h | h <;> rw [h]
  · exact hk
  · exact List.mem_append_left _ hk

theorem keys_foldl_add_word_count (ws : List String) (acc : List (String × Nat)) :
    (∀ k ∈ acc.map Prod.fst, k ∈ (ws.foldl add_word_count acc).map Prod.fst) ∧
    (∀ v ∈ ws, v ∈ (ws.foldl add_word_count acc).map Prod.fst) := by
  induction ws generalizing acc with
  | nil => exact ⟨fun k hk => hk, fun v hv => absurd hv (List.not_mem_nil v)⟩
  | cons w ws ih =>
    refine ⟨fun k hk => ?_, fun v hv => ?_⟩
    · exact (ih (add_word_count acc w)).1 k (mem_keys_add_word_count_mono acc w k hk)
    · rcases List.mem_cons.mp hv with hv | hv
      · subst hv
        exact (ih (add_word_count acc v)).1 v (mem_keys_add_word_count_self acc v)
      · exact (ih (add_word_count acc w)).2 v hv

theorem keys_foldl_add_word_count_sub (ws : List String) (acc : List (String × Nat)) :
    ∀ k ∈ (ws.foldl add_word_count acc).map Prod.fst,
      k ∈ acc.map Prod.fst ∨ k ∈ ws := by
  induction ws generalizing acc with
  | nil => exact fun k hk => Or.inl hk
  | cons w ws ih =>
    intro k hk
    rcases ih (add_word_count acc w) k hk with hk | hk
    · rcases add_word_count_keys acc w with h | h <;> rw [h] at hk
      · exact Or.inl hk
      · rcases List.mem_append.mp hk with hk | hk
        · exact Or.inl hk
        · exact Or.inr (by simp at hk; simp [hk])
    · exact Or.inr (List.mem_cons_of_mem w hk)

theorem mem_keys_word_counts {X : List (List String)} {sent : List String} {w : String}
    (hs : sent ∈ X) (hw : w ∈ sent) :
    lower w ∈ (word_counts X).map Prod.fst := by
  unfold word_counts
  suffices hgen : ∀ (acc : List (String × Nat)),
      (∀ k ∈ acc.map Prod.fst,
        k ∈ (X.foldl (fun acc sent => (sent.map lower).foldl add_word_count acc) acc).map Prod.fst) ∧
      (∀ s ∈ X, ∀ v ∈ s, lower v ∈
        (X.foldl (fun acc sent => (sent.map lower).foldl add_word_count acc) acc).map Prod.fst) by
    exact (hgen []).2 sent hs w hw
  clear hs hw sent
  induction X with
  | nil => exact fun acc => ⟨fun k hk => hk, fun s hs => absurd hs (List.not_mem_nil s)⟩
  | cons s X ih =>
    intro acc
    refine ⟨fun k hk => ?_, fun t ht v hv => ?_⟩
    · exact (ih _).1 k ((keys_foldl_add_word_count (s.map lower) acc).1 k hk)
    · rcases List.mem_cons.mp ht with ht | ht
      · subst ht
        exact (ih _).1 (lower v)
          ((keys_foldl_add_word_count (t.map lower) acc).2 (lower v)
            (List.mem_map_of_mem lower hv))
      · exact (ih _).2 t ht v hv

theorem keys_word_counts_lower {X : List (List String)} :
    ∀ k ∈ (word_counts X).map Prod.fst, ∃ u, k = lower u := by
  unfold word_counts
  suffices hgen : ∀ (acc : List (String × Nat)),
      ∀ k ∈ (X.foldl (fun acc sent => (sent.map lower).foldl add_word_count acc) acc).map Prod.fst,
        k ∈ acc.map Prod.fst ∨ ∃ u, k = lower u by
    intro k hk
    rcases hgen [] k hk with hk | hk
    · simp at hk
    · exact hk
  induction X with
  | nil => exact fun acc k hk => Or.inl hk
  | cons s X ih =>
    intro acc k hk
    rcases ih _ k hk with hk | hk
    · rcases keys_foldl_add_word_count_sub (s.map lower) acc k hk with hk | hk
      · exact Or.inl hk
      · obtain ⟨u, _, hu⟩ := List.mem_map.mp hk
        exact Or.inr ⟨u, hu.symm⟩
    · exact Or.inr hk

theorem mem_sorted_voc {X : List (List String)} {sent : List String} {w : String}
    (hs : sent ∈ X) (hw : w ∈ sent) : lower w ∈ sorted_voc X := by
  have h := mem_keys_word_counts hs hw
  have hperm := (List.perm_insertionSort
    (fun a b : String × Nat => b.2 ≤ a.2) (word_counts X)).map Prod.fst
  exact List.mem_cons_of_mem _ (hperm.mem_iff.mpr h)

theorem sorted_voc_tail_lower {X : List (List String)} {k : String}
    (hk : k ∈ (List.insertionSort (fun a b : String × Nat => b.2 ≤ a.2)
      (word_counts X)).map Prod.fst) :
    ∃ u, k = lower u := by
  have hperm := (List.perm_insertionSort
    (fun a b : String × Nat => b.2 ≤ a.2) (word_counts X)).map Prod.fst
  exact keys_word_counts_lower k (hperm.mem_iff.mp hk)

theorem mem_foldl_dedup_append (ts : List String) (acc : List String) :
    (∀ k ∈ acc, k ∈ ts.foldl dedup_append acc) ∧
    (∀ v ∈ ts, v ∈ ts.foldl dedup_append acc) := by
  induction ts generalizing acc with
  | nil => exact ⟨fun k hk => hk, fun v hv => absurd hv (List.not_mem_nil v)⟩
  | cons t ts ih =>
    have hmono : ∀ k ∈ acc, k ∈ dedup_append acc t := by
      intro k hk
      unfold dedup_append
      by_cases h : t ∈ acc
      · rw [if_pos h]; exact hk
      · rw [if_neg h]; exact List.mem_append_left _ hk
    have hself : t ∈ dedup_append acc t := by
      unfold dedup_append
      by_cases h : t ∈ acc
      · rw [if_pos h]; exact h
      · rw [if_neg h]; exact List.mem_append_right _ (List.mem_singleton.mpr rfl)
    refine ⟨fun k hk => ?_, fun v hv => ?_⟩
    · exact (ih (dedup_append acc t)).1 k (hmono k hk)
    · rcases List.mem_cons.mp hv with hv | hv
      · subst hv
        exact (ih (dedup_append acc v)).1 v hself
      · exact (ih (dedup_append acc t)).2 v hv

theorem mem_unique_tags {Y : List (List String)} {t : String} (h : t ∈ Y.flatten) :
    t ∈ unique_tags Y := by
  unfold unique_tags
  have hperm := List.perm_insertionSort
    (fun a b : String => charListLe a.data b.data = true) (Y.flatten.foldl dedup_append [])
  exact hperm.mem_iff.mpr ((mem_foldl_dedup_append Y.flatten []).2 t h)

theorem encode_decode_tags {ut : List String} {ts : List String}
    (h : ∀ t ∈ ts, t ∈ ut) :
    ∃ ids, encode_tags ut ts = some ids ∧ ids.length = ts.length ∧
      decoded_tags ut ids = ts := by
  induction ts with
  | nil => exact ⟨[], rfl, rfl, rfl⟩
  | cons t ts ih =>
    obtain ⟨j, h1, h2⟩ := first_index_spec (h t (List.mem_cons_self t ts))
    obtain ⟨ids, he, hl, hd⟩ := ih fun v hv => h v (List.mem_cons_of_mem t hv)
    refine ⟨j :: ids, ?_, by simp [hl], ?_⟩
    · simp only [encode_tags, tag2id, h1, he]
    · simp only [decoded_tags, List.map_cons]
      simp only [decoded_tags] at hd
      rw [hd, decode_tag, id2tag, h2]
      rfl

theorem pad_post_eq_append {s : List Nat} {L : Nat} (h : s.length ≤ L) :
    pad_sequence_post L s = s ++ List.replicate (L - s.length) 0 := by
  unfold pad_sequence_post
  by_cases hL : L ≤ s.length
  · have hlen : s.length = L := Nat.le_antisymm h hL
    rw [if_pos hL, ← hlen, List.take_length, Nat.sub_self]
    simp
  · rw [if_neg hL]

theorem pad_post_take {s : List Nat} {L : Nat} (h : s.length ≤ L) :
    (pad_sequence_post L s).take s.length = s := by
  rw [pad_post_eq_append h]
  exact List.take_left s _

theorem lookup_none_of_keys_lt {l : List (Nat × String)} {i : Nat}
    (hkeys : ∀ p ∈ l, p.1 ≤ 18) (hi : 19 ≤ i) : l.lookup i = none := by
  induction l with
  | nil => rfl
  | cons p l ih =>
    have hne : (i == p.1) = false := by
      have := hkeys p (List.mem_cons_self p l)
      simp only [beq_eq_false_iff_ne, ne_eq]
      omega
    simp only [List.lookup, hne]
    exact ih fun q hq => hkeys q (List.mem_cons_of_mem p hq)

theorem parse_token_fields_merge (b d : ProcState) (parts : List String) :
    parse_token_fields (merge_state b d) parts =
      (merge_state b (parse_token_fields d parts).1, (parse_token_fields d parts).2) := by
  unfold parse_token_fields
  split
  · split_ifs <;> simp [merge_state, Nat.add_assoc]
  · rfl

theorem parse_token_line_merge (b d : ProcState) (line : String) :
    parse_token_line (merge_state b d) line =
      (merge_state b (parse_token_line d line).1, (parse_token_line d line).2) := by
  unfold parse_token_line
  exact parse_token_fields_merge b d (split_tab line)

theorem process_completed_merge (b d : ProcState)
    (cur : List (String × String)) (raw : List String) :
    process_completed_sentence (merge_state b d) cur raw =
      merge_state b (process_completed_sentence d cur raw) := by
  simp only [process_completed_sentence, merge_state]
  split_ifs <;> simp [Nat.add_assoc, List.append_assoc]

theorem parse_line_step_merge (b : ProcState) (acc : ParseAcc) (line : String) :
    parse_line_step ⟨merge_state b acc.st, acc.current, acc.current_raw⟩ line =
      ⟨merge_state b (parse_line_step acc line).st, (parse_line_step acc line).current,
        (parse_line_step acc line).current_raw⟩ := by
  simp only [parse_line_step]
  by_cases h1 : py_strip line = ""
  · rw [if_pos h1, if_pos h1]
    by_cases h2 : acc.current ≠ []
    · rw [if_pos h2, if_pos h2]
      simp [process_completed_merge]
    · rw [if_neg h2, if_neg h2]
  · rw [if_neg h1, if_neg h1]
    by_cases h2 : starts_hash (py_strip line)
    · rw [if_pos h2, if_pos h2]
    · rw [if_neg h2, if_neg h2]
      rw [parse_token_line_merge]
      rcases htok : parse_token_line acc.st (py_strip line) with ⟨st1, tok⟩
      cases tok <;> rfl

theorem foldl_parse_merge (lines : List String) (b : ProcState) (acc : ParseAcc) :
    lines.foldl parse_line_step ⟨merge_state b acc.st, acc.current, acc.current_raw⟩ =
      ⟨merge_state b (lines.foldl parse_line_step acc).st,
        (lines.foldl parse_line_step acc).current,
        (lines.foldl parse_line_step acc).current_raw⟩ := by
  induction lines generalizing acc with
  | nil => rfl
  | cons l lines ih =>
    simp only [List.foldl_cons]
    rw [parse_line_step_merge b acc l]
    exact ih (parse_line_step acc l)

theorem parse_conllu_content_merge (b d : ProcState) (lines : List String) :
    parse_conllu_content (merge_state b d) lines =
      merge_state b (parse_conllu_content d lines) := by
  simp only [parse_conllu_content]
  have hfold := foldl_parse_merge lines b ⟨d, [], []⟩
  simp only at hfold
  rw [hfold]
  by_cases h : (lines.foldl parse_line_step ⟨d, [], []⟩).current ≠ []
  · rw [if_pos h, if_pos h]
    exact process_completed_merge b _ _ _
  · rw [if_neg h, if_neg h]

theorem parse_token_fields_frame (st : ProcState) (parts : List String) :
    (parse_token_fields st parts).1.sentences = st.sentences ∧
    (parse_token_fields st parts).1.max_sentence_length = st.max_sentence_length := by
  unfold parse_token_fields
  split
  · split_ifs <;> exact ⟨rfl, rfl⟩
  · exact ⟨rfl, rfl⟩

theorem process_completed_frame (st : ProcState) (cur : List (String × String))
    (raw : List String) :
    (process_completed_sentence st cur raw).max_sentence_length = st.max_sentence_length ∧
    ∀ s ∈ (process_completed_sentence st cur raw).sentences,
      s ∈ st.sentences ∨
        (s = cur ∧ 1 ≤ cur.length ∧ cur.length ≤ st.max_sentence_length) := by
  simp only [process_completed_sentence]
  split_ifs with h1 h2
  · exact ⟨rfl, fun s hs => Or.inl hs⟩
  · refine ⟨rfl, fun s hs => ?_⟩
    rcases List.mem_append.mp hs with hs | hs
    · exact Or.inl hs
    · have hse : s = cur := List.mem_singleton.mp hs
      exact Or.inr ⟨hse, h2, by omega⟩
  · exact ⟨rfl, fun s hs => Or.inl hs⟩

theorem parse_line_step_inv {M : Nat} (acc : ParseAcc) (line : String)
    (hmax : acc.st.max_sentence_length = M)
    (hinv : ∀ s ∈ acc.st.sentences, 1 ≤ s.length ∧ s.length ≤ M) :
    (parse_line_step acc line).st.max_sentence_length = M ∧
    ∀ s ∈ (parse_line_step acc line).st.sentences, 1 ≤ s.length ∧ s.length ≤ M := by
  simp only [parse_line_step]
  by_cases h1 : py_strip line = ""
  · rw [if_pos h1]
    by_cases h2 : acc.current ≠ []
    · rw [if_pos h2]
      obtain ⟨hm, hsen⟩ := process_completed_frame acc.st acc.current acc.current_raw
      refine ⟨by rw [hm, hmax], fun s hs => ?_⟩
      rcases hsen s hs with hs | ⟨hse, hlo, hhi⟩
      · exact hinv s hs
      · subst hse
        exact ⟨hlo, by omega⟩
    · rw [if_neg h2]
      exact ⟨hmax, hinv⟩
  · rw [if_neg h1]
    by_cases h2 : starts_hash (py_strip line)
    · rw [if_pos h2]
      exact ⟨hmax, hinv⟩
    · rw [if_neg h2]
      rcases htok : parse_token_line acc.st (py_strip line) with ⟨st1, tok⟩
      obtain ⟨hsen, hm⟩ := parse_token_fields_frame acc.st (split_tab (py_strip line))
      rw [show parse_token_fields acc.st (split_tab (py_strip line)) =
        parse_token_line acc.st (py_strip line) from rfl, htok] at hsen hm
      cases tok
      · exact ⟨by rw [hm, hmax], fun s hs => hinv s (by rw [← hsen]; exact hs)⟩
      · exact ⟨by rw [hm, hmax], fun s hs => hinv s (by rw [← hsen]; exact hs)⟩

theorem foldl_parse_inv (lines : List String) {M : Nat} (acc : ParseAcc)
    (hmax : acc.st.max_sentence_length = M)
    (hinv : ∀ s ∈ acc.st.sentences, 1 ≤ s.length ∧ s.length ≤ M) :
    (lines.foldl parse_line_step acc).st.max_sentence_length = M ∧
    ∀ s ∈ (lines.foldl parse_line_step acc).st.sentences,
      1 ≤ s.length ∧ s.length ≤ M := by
  induction lines generalizing acc with
  | nil => exact ⟨hmax, hinv⟩
  | cons l lines ih =>
    obtain ⟨hm, hi⟩ := parse_line_step_inv acc l hmax hinv
    exact ih (parse_line_step acc l) hm hi

theorem parse_conllu_content_inv (st : ProcState) (lines : List String)
    (hinv : ∀ s ∈ st.sentences, 1 ≤ s.length ∧ s.length ≤ st.max_sentence_length) :
    ∀ s ∈ (parse_conllu_content st lines).sentences,
      1 ≤ s.length ∧ s.length ≤ st.max_sentence_length := by
  simp only [parse_conllu_content]
  obtain ⟨hm, hi⟩ := foldl_parse_inv lines ⟨st, [], []⟩ rfl hinv
  by_cases h : (lines.foldl parse_line_step ⟨st, [], []⟩).current ≠ []
  · rw [if_pos h]
    obtain ⟨_, hsen⟩ := process_completed_frame
      (lines.foldl parse_line_step ⟨st, [], []⟩).st
      (lines.foldl parse_line_step ⟨st, [], []⟩).current
      (lines.foldl parse_line_step ⟨st, [], []⟩).current_raw
    intro s hs
    rcases hsen s hs with hs | ⟨hse, hlo, hhi⟩
    · exact hi s hs
    · subst hse
      rw [hm] at hhi
      exact ⟨hlo, hhi⟩
  · rw [if_neg h]
    exact hi

theorem unpad_pad (L : Nat) : ∀ xs : List (List Nat), (∀ x ∈ xs, x.length ≤ L) →
    unpad_rows (pad_sequences_post xs L) (xs.map List.length) = xs := by
  intro xs
  induction xs with
  | nil => intro _; rfl
  | cons x xs ih =>
    intro h
    simp only [pad_sequences_post, List.map_cons, unpad_rows, List.zipWith_cons_cons]
    rw [pad_post_take (h x (List.mem_cons_self x xs))]
    have hrest := ih fun y hy => h y (List.mem_cons_of_mem x hy)
    simp only [pad_sequences_post, unpad_rows] at hrest
    rw [hrest]

theorem decode_word_cases (X : List (List String)) (i : Nat) :
    decode_word (sorted_voc X) i = "<UNK>" ∨ decode_word (sorted_voc X) i = "<OOV>" ∨
      lower (decode_word (sorted_voc X) i) = decode_word (sorted_voc X) i := by
  match i with
  | 0 => exact Or.inl rfl
  | 1 =>
    refine Or.inr (Or.inl ?_)
    simp [decode_word, index_word, sorted_voc]
  | (k + 2) =>
    unfold decode_word index_word
    rw [if_neg (by omega : ¬ k + 2 = 0)]
    have h1 : (sorted_voc X)[k + 2 - 1]? =
        ((List.insertionSort (fun a b : String × Nat => b.2 ≤ a.2)
          (word_counts X)).map Prod.fst)[k]? := by
      show (("<OOV>" :: (List.insertionSort (fun a b : String × Nat => b.2 ≤ a.2)
        (word_counts X)).map Prod.fst : List String))[k + 1]? = _
      exact List.getElem?_cons_succ
    rw [h1]
    rcases htail : ((List.insertionSort (fun a b : String × Nat => b.2 ≤ a.2)
        (word_counts X)).map Prod.fst)[k]? with _ | w
    · exact Or.inl rfl
    · obtain ⟨u, hu⟩ := sorted_voc_tail_lower (List.getElem?_mem htail)
      subst hu
      exact Or.inr (Or.inr (lower_idem u))

/- ===================================================================
   Claim theorems
   =================================================================== -/

set_option maxRecDepth 40000

/-- C2 counterexample: the claim puts `UNK` at id 19 with 18 closed-set
tags, but `Mapper.map_ids` maps `UNK` to 18 and its table has 18
entries in total (17 closed tags plus `UNK`), so no tag is ever mapped
to 19. -/
theorem C2_counterexample :
    map_ids ["UNK"] = some [18] ∧ id_mapping.length = 18 ∧
      (∀ p ∈ id_mapping, p.2 ≠ 19) := by decide

/-- C2 (amended): `Mapper.map_ids`/`Mapper.map_pos` realize a total
bijection between the 17 closed universal POS tags plus `UNK` and the
ids 1..18 in the documented order (so `UNK` is 18, not 19); every
assigned id is distinct from the padding value 0; in particular
`DET` maps to 6 and `NOUN` to 8. -/
theorem C2_tag_mapping_bijection :
    map_ids ["ADJ", "ADP", "ADV", "AUX", "CCONJ", "DET", "INTJ", "NOUN", "NUM",
        "PART", "PRON", "PROPN", "PUNCT", "SCONJ", "SYM", "VERB", "X", "UNK"]
      = some [1, 2, 3, 4, 5, 6, 7, 8, 9, 10, 11, 12, 13, 14, 15, 16, 17, 18] ∧
    map_pos [1, 2, 3, 4, 5, 6, 7, 8, 9, 10, 11, 12, 13, 14, 15, 16, 17, 18]
      = some ["ADJ", "ADP", "ADV", "AUX", "CCONJ", "DET", "INTJ", "NOUN", "NUM",
          "PART", "PRON", "PROPN", "PUNCT", "SCONJ", "SYM", "VERB", "X", "UNK"] ∧
    map_ids ["DET", "NOUN"] = some [6, 8] ∧
    pos_mapping.lookup 0 = none := by decide

/-- C4: parsing a file whose token records carry the ids `1`, `19-20`,
`1-2`, `10.1`, `2` keeps exactly the records with ids `1` and `2` as
the tokens of the single retained sentence, increments the multiword
counter once per hyphen id (twice) and the empty-node counter once for
the dot id, and none of the excluded records appears in any retained
sentence. -/
theorem C4_multiword_empty_exclusion :
    (load_conllu_file initProcState 128
        ["1\tThe\t_\tDET\t_\t_\t_\t_\t_\t_",
         "19-20\tax\t_\t_\t_\t_\t_\t_\t_\t_",
         "1-2\tbx\t_\t_\t_\t_\t_\t_\t_\t_",
         "10.1\tcx\t_\tNOUN\t_\t_\t_\t_\t_\t_",
         "2\tcat\t_\tNOUN\t_\t_\t_\t_\t_\t_",
         ""]).sentences = [[("The", "DET"), ("cat", "NOUN")]] ∧
    (load_conllu_file initProcState 128
        ["1\tThe\t_\tDET\t_\t_\t_\t_\t_\t_",
         "19-20\tax\t_\t_\t_\t_\t_\t_\t_\t_",
         "1-2\tbx\t_\t_\t_\t_\t_\t_\t_\t_",
         "10.1\tcx\t_\tNOUN\t_\t_\t_\t_\t_\t_",
         "2\tcat\t_\tNOUN\t_\t_\t_\t_\t_\t_",
         ""]).removed_multiword_count = 2 ∧
    (load_conllu_file initProcState 128
        ["1\tThe\t_\tDET\t_\t_\t_\t_\t_\t_",
         "19-20\tax\t_\t_\t_\t_\t_\t_\t_\t_",
         "1-2\tbx\t_\t_\t_\t_\t_\t_\t_\t_",
         "10.1\tcx\t_\tNOUN\t_\t_\t_\t_\t_\t_",
         "2\tcat\t_\tNOUN\t_\t_\t_\t_\t_\t_",
         ""]).removed_empty_nodes = 1 := by decide

/-- C5: padding with `padding='post'`, `truncating='post'` appends
trailing zeros after the content of every sequence not longer than
`max_len`, and unpadding each padded row to its true length recovers
the original sequences exactly. -/
theorem C5_padding_roundtrip (xs : List (List Nat)) (L : Nat)
    (h : ∀ x ∈ xs, x.length ≤ L) :
    (∀ x ∈ xs, pad_sequence_post L x = x ++ List.replicate (L - x.length) 0) ∧
    unpad_rows (pad_sequences_post xs L) (xs.map List.length) = xs :=
  ⟨fun x hx => pad_post_eq_append (h x hx), unpad_pad L xs h⟩

/-- C5 witness: padding `[5, 9, 2]` to `max_len = 5` yields
`[5, 9, 2, 0, 0]` and unpadding to the true length 3 recovers
`[5, 9, 2]`. -/
theorem C5_padding_roundtrip_witness :
    ((∀ x ∈ [[5, 9, 2]], pad_sequence_post 5 x =
        x ++ List.replicate (5 - x.length) 0) ∧
      unpad_rows (pad_sequences_post [[5, 9, 2]] 5) ([[5, 9, 2]].map List.length)
        = [[5, 9, 2]]) ∧
    pad_sequence_post 5 [5, 9, 2] = [5, 9, 2, 0, 0] :=
  ⟨C5_padding_roundtrip [[5, 9, 2]] 5 (by decide), by decide⟩

/-- C6 counterexample: `MyTagger.padding` omits the `truncating`
argument, so keras' default `truncating='pre'` applies: a sequence of
129 elements keeps its last 128 elements, not its first 128 — the
result differs from the prefix of length 128. -/
theorem C6_counterexample :
    myTagger_padding [List.range 129] = [(List.range 129).drop 1] ∧
    (List.range 129).drop 1 ≠ (List.range 129).take 128 := by decide

/-- C6 (amended): the padding used in `tokenization_and_mapping.py`
(`truncating='post'`) truncates a sequence of length at least `max_len`
to its first `max_len` elements; `MyTagger.padding` instead uses the
default `truncating='pre'` and keeps the last 128 elements. -/
theorem C6_truncation (x : List Nat) (L : Nat) (hx : L ≤ x.length)
    (y : List Nat) (hy : 128 ≤ y.length) :
    pad_sequence_post L x = x.take L ∧
    pad_sequence_pre_trunc 128 y = y.drop (y.length - 128) := by
  constructor
  · unfold pad_sequence_post
    rw [if_pos hx]
  · unfold pad_sequence_pre_trunc
    rw [if_pos hy]

/-- C6 witness: truncating `[1, 2, 3]` to length 2 post-style keeps
`[1, 2]`; `MyTagger.padding`-style truncation of a 129-element sequence
keeps the elements after the first. -/
theorem C6_truncation_witness :
    pad_sequence_post 2 [1, 2, 3] = [1, 2, 3].take 2 ∧
    pad_sequence_pre_trunc 128 (List.range 129) =
      (List.range 129).drop ((List.range 129).length - 128) :=
  C6_truncation [1, 2, 3] 2 (by decide) (List.range 129) (by decide)

/-- C9: any 10-field record whose id column contains a hyphen and does
not start with `#` is classified as a multiword token — no check that
the parts around the hyphen are integers — and is excluded with the
multiword counter incremented; the hyphen test runs before the dot
test, so the empty-node counter is untouched even if the id also
contains a dot. -/
theorem C9_hyphen_multiword (st : ProcState) (line : String)
    (t0 w1 w2 w3 w4 w5 w6 w7 w8 w9 : String)
    (hsplit : split_tab line = [t0, w1, w2, w3, w4, w5, w6, w7, w8, w9])
    (hhy : str_contains t0 '-' = true) (hhash : starts_hash t0 = false) :
    is_multiword_token t0 = true ∧
    parse_token_line st line =
      ({ st with removed_multiword_count := st.removed_multiword_count + 1 }, none) := by
  have hmt : is_multiword_token t0 = true := by
    simp [is_multiword_token, hhy, hhash]
  refine ⟨hmt, ?_⟩
  simp [parse_token_line, hsplit, parse_token_fields, hmt]

/-- C9 witness: the malformed id `a-b` (and similarly an id containing
both a hyphen and a dot) is treated as a multiword token. -/
theorem C9_hyphen_multiword_witness :
    is_multiword_token "a-b" = true ∧
    parse_token_line initProcState "a-b\tdel\t_\tNOUN\t_\t_\t_\t_\t_\t_" =
      ({ initProcState with
          removed_multiword_count := initProcState.removed_multiword_count + 1 }, none) :=
  C9_hyphen_multiword initProcState "a-b\tdel\t_\tNOUN\t_\t_\t_\t_\t_\t_"
    "a-b" "del" "_" "NOUN" "_" "_" "_" "_" "_" "_" (by decide) (by decide) (by decide)

/-- C3: every sentence the parser retains has between 1 and
`max_sentence_length` tokens, and a completed sentence exceeding the
limit is dropped in full: the state after processing it has the same
retained sentences and exactly one more `removed_long_sentences` (and
one more processed-total). -/
theorem C3_length_filter :
    (∀ (lines : List String) (m : Nat),
      ∀ s ∈ (load_conllu_file initProcState m lines).sentences,
        1 ≤ s.length ∧ s.length ≤ m) ∧
    (∀ (st : ProcState) (sent : List (String × String)) (raw : List String),
      st.max_sentence_length < sent.length →
      process_completed_sentence st sent raw =
        { st with
            total_sentences_processed := st.total_sentences_processed + 1,
            removed_long_sentences := st.removed_long_sentences + 1 }) := by
  constructor
  · intro lines m s hs
    unfold load_conllu_file at hs
    have h := parse_conllu_content_inv { initProcState with max_sentence_length := m }
      lines (by intro t ht; simp [initProcState] at ht) s hs
    simpa using h
  · intro st sent raw h
    simp only [process_completed_sentence]
    rw [if_pos h]

/-- C3 witness: the two-token sentence parsed from the sample file is
kept with its length between 1 and 128, while a 129-token sentence is
dropped whole, bumping only the total and long-sentence counters. -/
theorem C3_length_filter_witness :
    (1 ≤ ([("The", "DET"), ("cat", "NOUN")] : List (String × String)).length ∧
      ([("The", "DET"), ("cat", "NOUN")] : List (String × String)).length ≤ 128) ∧
    process_completed_sentence initProcState (List.replicate 129 ("w", "NOUN")) [] =
      { initProcState with
          total_sentences_processed := initProcState.total_sentences_processed + 1,
          removed_long_sentences := initProcState.removed_long_sentences + 1 } :=
  ⟨C3_length_filter.1
      ["1\tThe\t_\tDET\t_\t_\t_\t_\t_\t_", "2\tcat\t_\tNOUN\t_\t_\t_\t_\t_\t_", ""] 128
      [("The", "DET"), ("cat", "NOUN")] (by decide),
   C3_length_filter.2 initProcState (List.replicate 129 ("w", "NOUN")) [] (by decide)⟩

/-- C7 counterexample: calling `load_conllu_file` twice with the same
file on the same processor does not leave identical state after each
load: the corpus after the second load has the sentence twice and the
processed-sentence total is 2 instead of 1, because the method never
resets the accumulated state. -/
theorem C7_counterexample :
    (load_conllu_file (load_conllu_file initProcState 128
        ["1\tThe\t_\tDET\t_\t_\t_\t_\t_\t_", "2\tcat\t_\tNOUN\t_\t_\t_\t_\t_\t_", ""]) 128
        ["1\tThe\t_\tDET\t_\t_\t_\t_\t_\t_", "2\tcat\t_\tNOUN\t_\t_\t_\t_\t_\t_", ""]).sentences
      ≠ (load_conllu_file initProcState 128
        ["1\tThe\t_\tDET\t_\t_\t_\t_\t_\t_", "2\tcat\t_\tNOUN\t_\t_\t_\t_\t_\t_", ""]).sentences ∧
    (load_conllu_file (load_conllu_file initProcState 128
        ["1\tThe\t_\tDET\t_\t_\t_\t_\t_\t_", "2\tcat\t_\tNOUN\t_\t_\t_\t_\t_\t_", ""]) 128
        ["1\tThe\t_\tDET\t_\t_\t_\t_\t_\t_", "2\tcat\t_\tNOUN\t_\t_\t_\t_\t_\t_",
          ""]).total_sentences_processed = 2 ∧
    (load_conllu_file initProcState 128
        ["1\tThe\t_\tDET\t_\t_\t_\t_\t_\t_", "2\tcat\t_\tNOUN\t_\t_\t_\t_\t_\t_",
          ""]).total_sentences_processed = 1 := by decide

/-- C7 (amended): parsing is a deterministic function of the file
content and `max_sentence_length` (so two freshly initialized
processors loading the same file agree), but `load_conllu_file` never
resets processor state: re-loading the same file on the same processor
appends an identical second copy of the corpus and doubles every
counter, as stated by this `merge_state` equation. -/
theorem C7_reload_accumulates (lines : List String) (m : Nat) :
    load_conllu_file (load_conllu_file initProcState m lines) m lines =
      merge_state (load_conllu_file initProcState m lines)
        (load_conllu_file initProcState m lines) := by
  have hbase : ∀ s : ProcState, { s with max_sentence_length := m } =
      merge_state s { initProcState with max_sentence_length := m } := by
    intro s
    simp [merge_state, initProcState]
  show parse_conllu_content
      { load_conllu_file initProcState m lines with max_sentence_length := m } lines = _
  rw [hbase, parse_conllu_content_merge]
  rfl

/-- C8 counterexample: decoding an out-of-range id in
`tokenization_and_mapping.py` does not fail: both `id2tag.get` and
`index_word.get` silently substitute the sentinel `"<UNK>"`. -/
theorem C8_counterexample :
    decoded_tags (unique_tags [["DET", "NOUN"]]) [99] = ["<UNK>"] ∧
    decoded_words (sorted_voc [["the", "cat"]]) [99] = ["<UNK>"] := by decide

/-- C8 (amended): `Mapper.map_pos` fails (`KeyError`, modelled by
`none`) on every id outside 1..18, but the decoding steps of
`tokenization_and_mapping.py` never fail on out-of-range ids: they
substitute the sentinel `"<UNK>"` instead. -/
theorem C8_out_of_range (i : Nat) (hi : i = 0 ∨ 19 ≤ i)
    (ut : List String) (j : Nat) (hj : ut.length ≤ j)
    (voc : List String) (k : Nat) (hk : voc.length < k) :
    map_pos [i] = none ∧ decode_tag ut j = "<UNK>" ∧ decode_word voc k = "<UNK>" := by
  refine ⟨?_, ?_, ?_⟩
  · have hlook : pos_mapping.lookup i = none := by
      rcases hi with hi | hi
      · subst hi
        decide
      · exact lookup_none_of_keys_lt (by decide) hi
    simp [map_pos, hlook]
  · simp [decode_tag, id2tag, List.getElem?_eq_none hj]
  · have hk0 : ¬ k = 0 := by omega
    have hnone : voc[k - 1]? = none := List.getElem?_eq_none (by omega)
    simp [decode_word, index_word, hk0, hnone]

/-- C8 witness: id 19 makes `Mapper.map_pos` fail, while tag id 99 and
word id 99 decode to the `"<UNK>"` sentinel without failing. -/
theorem C8_out_of_range_witness :
    map_pos [19] = none ∧
    decode_tag (unique_tags [["DET", "NOUN"]]) 99 = "<UNK>" ∧
    decode_word (sorted_voc [["the", "cat"]]) 99 = "<UNK>" :=
  C8_out_of_range 19 (by decide) (unique_tags [["DET", "NOUN"]]) 99 (by decide)
    (sorted_voc [["the", "cat"]]) 99 (by decide)

/-- C1 counterexample: the sentence `[("The", "DET")]` has every form
present in the training data used to fit the vocabulary, yet decoding
the encoded, padded, truncated-to-true-length sequence returns
`["the"]`, not the original `["The"]`: the tokenizer lowercases during
fitting and encoding, so the round trip is not the identity on forms
containing upper-case letters. -/
theorem C1_counterexample :
    (∀ p ∈ ([("The", "DET")] : List (String × String)),
        p.1 ∈ (split_words [[("The", "DET")]]).flatten) ∧
    decoded_words (sorted_voc (split_words [[("The", "DET")]]))
        ((pad_sequence_post 128 (texts_to_sequences_sent
            (sorted_voc (split_words [[("The", "DET")]]))
            (([("The", "DET")] : List (String × String)).map Prod.fst))).take
          ([("The", "DET")] : List (String × String)).length)
      ≠ ([("The", "DET")] : List (String × String)).map Prod.fst := by decide

/-- C1 (amended): for every sentence of length at most `MAX_LEN = 128`
whose token forms all occur in the training data and whose tags all
occur in the training tags, tag encoding succeeds, and decoding the
encoded, padded sequences restricted to the sentence's true length
yields exactly the original tags and the lowercased original forms (so
the round trip is the identity exactly on sentences whose forms are
already lower-case). -/
theorem C1_roundtrip_lowercase (train : List (List (String × String)))
    (s : List (String × String)) (hlen : s.length ≤ 128)
    (hw : ∀ p ∈ s, p.1 ∈ (split_words train).flatten)
    (ht : ∀ p ∈ s, p.2 ∈ (split_tags train).flatten) :
    ∃ tag_ids : List Nat,
      encode_tags (unique_tags (split_tags train)) (s.map Prod.snd) = some tag_ids ∧
      decoded_words (sorted_voc (split_words train))
          ((pad_sequence_post 128 (texts_to_sequences_sent
            (sorted_voc (split_words train)) (s.map Prod.fst))).take s.length)
        = (s.map Prod.fst).map lower ∧
      decoded_tags (unique_tags (split_tags train))
          ((pad_sequence_post 128 tag_ids).take s.length)
        = s.map Prod.snd := by
  have hw' : ∀ w ∈ s.map Prod.fst, lower w ∈ sorted_voc (split_words train) := by
    intro w hwm
    obtain ⟨p, hp, hpe⟩ := List.mem_map.mp hwm
    subst hpe
    obtain ⟨sent, hsent, hmem⟩ := List.mem_flatten.mp (hw p hp)
    exact mem_sorted_voc hsent hmem
  obtain ⟨hlenw, hdecw⟩ := texts_roundtrip hw'
  have ht' : ∀ t ∈ s.map Prod.snd, t ∈ unique_tags (split_tags train) := by
    intro t htm
    obtain ⟨p, hp, hpe⟩ := List.mem_map.mp htm
    subst hpe
    exact mem_unique_tags (ht p hp)
  obtain ⟨ids, he, hlent, hdect⟩ := encode_decode_tags ht'
  refine ⟨ids, he, ?_, ?_⟩
  · have hsl : s.length = (texts_to_sequences_sent
        (sorted_voc (split_words train)) (s.map Prod.fst)).length := by
      rw [hlenw, List.length_map]
    rw [hsl, pad_post_take (by rw [hlenw, List.length_map]; exact hlen)]
    exact hdecw
  · have hsl : s.length = ids.length := by
      rw [hlent, List.length_map]
    rw [hsl, pad_post_take (by rw [hlent, List.length_map]; exact hlen)]
    exact hdect

/-- C1 witness: for the all-lowercase-free training sentence
`[("The", "DET"), ("cat", "NOUN")]` taken as its own input, encoding
succeeds and decoding returns the tags unchanged and the forms
lowercased. -/
theorem C1_roundtrip_lowercase_witness :
    ∃ tag_ids : List Nat,
      encode_tags (unique_tags (split_tags [[("The", "DET"), ("cat", "NOUN")]]))
          (([("The", "DET"), ("cat", "NOUN")] : List (String × String)).map Prod.snd)
        = some tag_ids ∧
      decoded_words (sorted_voc (split_words [[("The", "DET"), ("cat", "NOUN")]]))
          ((pad_sequence_post 128 (texts_to_sequences_sent
            (sorted_voc (split_words [[("The", "DET"), ("cat", "NOUN")]]))
            (([("The", "DET"), ("cat", "NOUN")] : List (String × String)).map Prod.fst))).take
            ([("The", "DET"), ("cat", "NOUN")] : List (String × String)).length)
        = (([("The", "DET"), ("cat", "NOUN")] : List (String × String)).map Prod.fst).map lower ∧
      decoded_tags (unique_tags (split_tags [[("The", "DET"), ("cat", "NOUN")]]))
          ((pad_sequence_post 128 tag_ids).take
            ([("The", "DET"), ("cat", "NOUN")] : List (String × String)).length)
        = ([("The", "DET"), ("cat", "NOUN")] : List (String × String)).map Prod.snd :=
  C1_roundtrip_lowercase [[("The", "DET"), ("cat", "NOUN")]]
    [("The", "DET"), ("cat", "NOUN")] (by decide) (by decide) (by decide)

/-- C10 counterexample: not every decoded word form is lowercase — an
out-of-vocabulary word encodes to the OOV index, which decodes to the
sentinel `"<OOV>"`, and `"<OOV>"` is not lowercase. -/
theorem C10_counterexample :
    decoded_words (sorted_voc [["the"]])
        (texts_to_sequences_sent (sorted_voc [["the"]]) ["Xyz"]) = ["<OOV>"] ∧
    lower "<OOV>" ≠ "<OOV>" := by decide

/-- C10 (amended): encoding is case-insensitive (a word and its
lowercased form get the same id); every decoded word is either the
sentinel `"<UNK>"`, the OOV sentinel `"<OOV>"`, or a lowercase string;
and decoding after encoding returns the original form whenever that
form is already all-lowercase and present in the fitted vocabulary. -/
theorem C10_case_insensitive (X : List (List String)) :
    (∀ w : String, encode_word (sorted_voc X) w = encode_word (sorted_voc X) (lower w)) ∧
    (∀ i : Nat, decode_word (sorted_voc X) i = "<UNK>" ∨
        decode_word (sorted_voc X) i = "<OOV>" ∨
        lower (decode_word (sorted_voc X) i) = decode_word (sorted_voc X) i) ∧
    (∀ w : String, lower w = w → lower w ∈ sorted_voc X →
        decoded_words (sorted_voc X) (texts_to_sequences_sent (sorted_voc X) [w]) = [w]) := by
  refine ⟨fun w => ?_, decode_word_cases X, fun w hlw hmem => ?_⟩
  · unfold encode_word
    rw [lower_idem]
  · have hsing : ∀ v ∈ [w], lower v ∈ sorted_voc X := fun v hv => by
      rw [List.mem_singleton.mp hv]
      exact hmem
    obtain ⟨_, hdec⟩ := texts_roundtrip hsing
    rw [hdec]
    simp [hlw]

/-- C10 witness: with the vocabulary fitted on `[["The"]]`, encoding
`"The"` equals encoding `lower "The"`, and the in-vocabulary lowercase
word `"the"` round-trips unchanged. -/
theorem C10_case_insensitive_witness :
    encode_word (sorted_voc [["The"]]) "The" =
      encode_word (sorted_voc [["The"]]) (lower "The") ∧
    decoded_words (sorted_voc [["The"]])
      (texts_to_sequences_sent (sorted_voc [["The"]]) ["the"]) = ["the"] :=
  ⟨(C10_case_insensitive [["The"]]).1 "The",
   (C10_case_insensitive [["The"]]).2.2 "the" (by decide) (by decide)⟩
